import Mathlib

/-!
Verification of the memory/knowledge storage and retrieval subsystem of the
eliza-ubc repository: the chunking engine, the memory manager and knowledge
service (modelled from the specification, since the core library code these
claims concern is not vendored under this tree), and the in-memory property
storage from packages/plugin-spreadsheet/src/storage/memory-storage.ts.
-/

namespace Chunking

/-- Error raised when the chunking configuration is invalid. -/
inductive ChunkError
  | invalidChunkConfig
deriving DecidableEq, Repr

/-- Modelled from the spec: the fragment loop of the missing `splitChunks`
(§4.2 ChunkingEngine).  Each step emits the next window of `c` characters and
recurses on the text with the first `c - b` characters dropped, so consecutive
fragments share `b` characters of overlap; the loop stops as soon as the
remaining text fits into a single window, which that last fragment then equals.
The `c ≤ b` disjunct of the guard is unreachable under the `bleed < chunkSize`
validation performed by `splitChunks` and only makes the recursion
structurally terminating. -/
def chunkLoop (c b : Nat) (t : List Char) : List (List Char) :=
  if _h : t.length ≤ c ∨ c ≤ b then [t]
  else t.take c :: chunkLoop c b (t.drop (c - b))
termination_by t.length
decreasing_by
  push_neg at _h
  simp only [List.length_drop]
  omega

/-- Modelled from the spec: `splitChunks` (§4.2, §7).  A configuration with
`bleed >= chunkSize` is rejected with a configuration error before any
chunking happens; otherwise the deterministic fragment loop runs. -/
def splitChunks (t : List Char) (chunkSize bleed : Nat) :
    Except ChunkError (List (List Char)) :=
  if chunkSize ≤ bleed then .error .invalidChunkConfig
  else .ok (chunkLoop chunkSize bleed t)

end Chunking

namespace MemoryModel

/-- Modelled from the spec (§3): the content of a memory record; `source`
links a fragment back to its owning document. -/
structure Content where
  text : String
  source : Option Nat
deriving DecidableEq, Repr

/-- Modelled from the spec (§3): the atomic persisted unit `Memory` of the
missing core `memory.ts`.  Scoping is collapsed to a single room identifier
and embeddings are rational vectors. -/
structure Memory where
  id : Nat
  roomId : Nat
  content : Content
  embedding : Option (List ℚ)
  unique : Bool
deriving DecidableEq, Repr

/-- Validation failure of a memory operation (§7: empty text on create). -/
inductive MemError
  | validation
deriving DecidableEq, Repr

/-- Failure of the external embedding provider (§6, §7). -/
inductive ProviderError
  | unavailable
deriving DecidableEq, Repr

/-- Modelled from the spec (§3): two texts are effectively identical.  The
spec's near-duplicate check (similarity above a high dedup threshold) is
instantiated at the core case its invariant names, exact text equality. -/
def effectivelyIdentical (a b : String) : Bool := a == b

/-- Modelled from the spec (§4.3): `createMemory` of the missing core
`memory.ts`.  Empty text fails with a validation error; a `unique` memory is
skipped when the same scope already holds an effectively identical memory;
otherwise the memory is appended to the store. -/
def createMemory (store : List Memory) (m : Memory) :
    Except MemError (List Memory) :=
  if m.content.text = "" then .error .validation
  else if m.unique &&
      store.any (fun x => x.roomId == m.roomId &&
        effectivelyIdentical x.content.text m.content.text) then
    .ok store
  else .ok (store ++ [m])

/-- The store invariant of §3: no two `unique` memories in the same scope
hold effectively identical text. -/
def NoDupUnique (store : List Memory) : Prop :=
  store.Pairwise (fun a b => ¬(a.unique = true ∧ b.unique = true ∧
    a.roomId = b.roomId ∧
    effectivelyIdentical a.content.text b.content.text = true))

/-- The zero vector of the deployment's embedding dimensionality. -/
def zeroVector (dim : Nat) : List ℚ := List.replicate dim 0

/-- Modelled from the spec (§4.3, §7): `addEmbeddingToMemory` of the missing
core `memory.ts`.  Empty text fails with a validation error; an existing
embedding is kept; otherwise the embedding cache is consulted and then the
provider, and a provider failure is absorbed by falling back to the zero
vector of the expected dimensionality. -/
def addEmbeddingToMemory (cache : String → Option (List ℚ))
    (provider : String → Except ProviderError (List ℚ)) (dim : Nat)
    (m : Memory) : Except MemError Memory :=
  if m.content.text = "" then .error .validation
  else
    match m.embedding with
    | some _ => .ok m
    | none =>
      match cache m.content.text with
      | some v => .ok { m with embedding := some v }
      | none =>
        match provider m.content.text with
        | .ok v => .ok { m with embedding := some v }
        | .error _ => .ok { m with embedding := some (zeroVector dim) }

/-- Descending order on scored memories: the left score dominates. -/
def simGE (a b : Memory × ℚ) : Prop := b.2 ≤ a.2

instance : DecidableRel simGE := fun a b =>
  inferInstanceAs (Decidable (b.2 ≤ a.2))

instance : IsTotal (Memory × ℚ) simGE := ⟨fun a b => le_total b.2 a.2⟩

instance : IsTrans (Memory × ℚ) simGE :=
  ⟨fun _ _ _ hab hbc => le_trans hbc hab⟩

/-- Modelled from the spec (§4.3): `searchMemoriesByEmbedding` of the missing
core `memory.ts`.  The similarity metric is abstracted as `sim`; memories of
the requested scope are scored against the query embedding, ordered by
descending similarity (stably, so ties keep insertion order), restricted to
scores at or above the match threshold, and truncated to `count`. -/
def searchMemoriesByEmbedding (sim : List ℚ → List ℚ → ℚ)
    (store : List Memory) (e : List ℚ) (matchThreshold : ℚ) (count : Nat)
    (room : Nat) : List (Memory × ℚ) :=
  let scored := (store.filter (fun m => m.roomId == room)).map
    (fun m => (m, sim e (m.embedding.getD [])))
  ((List.insertionSort simGE scored).filter
    (fun p => decide (matchThreshold ≤ p.2))).take count

/-- Modelled from the spec (§4.3): `getMemoryById`, absence as a result. -/
def getMemoryById (store : List Memory) (id : Nat) : Option Memory :=
  store.find? (fun m => m.id == id)

/-- A knowledge item returned by retrieval (§4.4): the fragment's matched
text, its similarity score, and the resolved source document's full text. -/
structure KnowledgeItem where
  fragmentText : String
  similarity : ℚ
  sourceId : Nat
  documentText : String
deriving DecidableEq, Repr

/-- Resolution of one fragment hit against the documents store (§4.4):
a hit resolves only when its `content.source` names an existing document. -/
def resolveHit (docs : List Memory) (p : Memory × ℚ) : Option KnowledgeItem :=
  match p.1.content.source with
  | none => none
  | some sid =>
    match getMemoryById docs sid with
    | none => none
    | some d => some ⟨p.1.content.text, p.2, sid, d.content.text⟩

/-- Modelled from the spec (§4.4): the retrieval step of the missing
`KnowledgeService.get` — search the fragments store, then resolve each hit's
source document, dropping hits whose document is missing. -/
def knowledgeGet (sim : List ℚ → List ℚ → ℚ) (docs frags : List Memory)
    (e : List ℚ) (matchThreshold : ℚ) (count : Nat) (room : Nat) :
    List KnowledgeItem :=
  (searchMemoriesByEmbedding sim frags e matchThreshold count room).filterMap
    (resolveHit docs)

/-- A sample memory used to instantiate theorems at concrete inputs. -/
def sampleMemory (id roomId : Nat) (text : String) (uniq : Bool) : Memory :=
  { id := id, roomId := roomId, content := { text := text, source := none },
    embedding := none, unique := uniq }

end MemoryModel

namespace PropertyStorage

/-- NFT metadata of a property (plugin-spreadsheet `NFTMetadata`); the
`blockchain` union type is a string, dates are integer timestamps. -/
structure NFTMetadata where
  tokenId : String
  contractAddress : String
  blockchain : String
  lastSalePrice : Option ℚ
  lastSaleDate : Option Int
deriving DecidableEq, Repr

/-- Market status of a property (plugin-spreadsheet `MarketStatus`). -/
structure MarketStatus where
  isListed : Bool
  currentPrice : Option ℚ
  currency : Option String
  marketplace : String
  listingUrl : Option String
  lastUpdated : Int
deriving DecidableEq, Repr

/-- Property record (plugin-spreadsheet `PropertyData`); numeric fields are
rationals. -/
structure PropertyData where
  id : String
  name : String
  neighborhood : String
  zoningType : String
  plotSize : String
  buildingSize : String
  maxFloors : ℚ
  minFloors : ℚ
  plotArea : ℚ
  maxBuildingHeight : ℚ
  minBuildingHeight : ℚ
  oceanDistanceMeters : ℚ
  bayDistanceMeters : ℚ
  description : String
  nft : Option NFTMetadata
  market : Option MarketStatus
deriving DecidableEq, Repr

/-- Error codes of the storage layer (`StorageErrorCode`). -/
inductive StorageErrorCode
  | NOT_FOUND
  | INVALID_DATA
  | OPERATION_FAILED
  | VECTOR_MISMATCH
  | INTERNAL_ERROR
  | MISSING_REQUIRED_FIELD
  | INVALID_NUMERIC_VALUE
  | INVALID_MARKET_DATA
  | INVALID_NFT_DATA
deriving DecidableEq, Repr

/-- The `StorageError` thrown by storage operations: a code and a message. -/
structure StorageError where
  code : StorageErrorCode
  message : String
deriving DecidableEq, Repr

/-- The NOT_FOUND error thrown for an absent property id. -/
def notFoundError (id : String) : StorageError :=
  ⟨.NOT_FOUND, "Property with ID " ++ id ++ " not found"⟩

/-- Market-data checks of `validateProperty`; the `typeof isListed` and
`instanceof Date` checks of the source are vacuous here because the fields
are typed. -/
def validateMarket (m : MarketStatus) : Option StorageError :=
  if m.currentPrice.any (fun pr => decide (pr ≤ 0)) then
    some ⟨.INVALID_MARKET_DATA, "Market price must be a positive number"⟩
  else if m.marketplace != "opensea" && m.marketplace != "other" then
    some ⟨.INVALID_MARKET_DATA, "Invalid marketplace specified"⟩
  else none

/-- NFT-data checks of `validateProperty`; the `instanceof Date` check of the
source is vacuous here because the field is typed. -/
def validateNft (n : NFTMetadata) : Option StorageError :=
  if n.tokenId = "" || n.contractAddress = "" then
    some ⟨.INVALID_NFT_DATA, "NFT token ID and contract address are required"⟩
  else if n.blockchain != "ethereum" && n.blockchain != "polygon" then
    some ⟨.INVALID_NFT_DATA, "Invalid blockchain specified"⟩
  else if n.lastSalePrice.any (fun pr => decide (pr ≤ 0)) then
    some ⟨.INVALID_NFT_DATA, "NFT last sale price must be a positive number"⟩
  else none

/-- `validateProperty` of `MemoryPropertyStorage`: required string fields must
be non-blank, numeric fields must lie in their ranges, minima may not exceed
maxima, and optional market and NFT data must be well formed.  Returns the
first failure (the source throws it) or `none` when the record is valid.
The source's `typeof`/`isNaN` guards are vacuous on typed rationals. -/
def validateProperty (p : PropertyData) : Option StorageError :=
  if p.name.trim = "" then
    some ⟨.MISSING_REQUIRED_FIELD, "Missing or invalid required field: name"⟩
  else if p.neighborhood.trim = "" then
    some ⟨.MISSING_REQUIRED_FIELD,
      "Missing or invalid required field: neighborhood"⟩
  else if p.zoningType.trim = "" then
    some ⟨.MISSING_REQUIRED_FIELD,
      "Missing or invalid required field: zoningType"⟩
  else if p.plotSize.trim = "" then
    some ⟨.MISSING_REQUIRED_FIELD,
      "Missing or invalid required field: plotSize"⟩
  else if p.buildingSize.trim = "" then
    some ⟨.MISSING_REQUIRED_FIELD,
      "Missing or invalid required field: buildingSize"⟩
  else if p.description.trim = "" then
    some ⟨.MISSING_REQUIRED_FIELD,
      "Missing or invalid required field: description"⟩
  else if p.maxFloors < 1 || 200 < p.maxFloors then
    some ⟨.INVALID_NUMERIC_VALUE, "Maximum floors must be between 1 and 200"⟩
  else if p.minFloors < 1 || 200 < p.minFloors then
    some ⟨.INVALID_NUMERIC_VALUE, "Minimum floors must be between 1 and 200"⟩
  else if p.plotArea < 0 || 1000000 < p.plotArea then
    some ⟨.INVALID_NUMERIC_VALUE,
      "Plot area must be positive and less than 1,000,000 square feet"⟩
  else if p.maxBuildingHeight < 0 || 2000 < p.maxBuildingHeight then
    some ⟨.INVALID_NUMERIC_VALUE,
      "Maximum building height must be between 0 and 2000 feet"⟩
  else if p.minBuildingHeight < 0 || 2000 < p.minBuildingHeight then
    some ⟨.INVALID_NUMERIC_VALUE,
      "Minimum building height must be between 0 and 2000 feet"⟩
  else if p.oceanDistanceMeters < 0 || 100000 < p.oceanDistanceMeters then
    some ⟨.INVALID_NUMERIC_VALUE,
      "Ocean distance must be between 0 and 100,000 meters"⟩
  else if p.bayDistanceMeters < 0 || 100000 < p.bayDistanceMeters then
    some ⟨.INVALID_NUMERIC_VALUE,
      "Bay distance must be between 0 and 100,000 meters"⟩
  else if p.maxFloors < p.minFloors then
    some ⟨.INVALID_NUMERIC_VALUE,
      "Minimum floors cannot be greater than maximum floors"⟩
  else if p.maxBuildingHeight < p.minBuildingHeight then
    some ⟨.INVALID_NUMERIC_VALUE,
      "Minimum building height cannot be greater than maximum building height"⟩
  else
    match p.market.bind validateMarket with
    | some e => some e
    | none => p.nft.bind validateNft

/-- A JS `Map<string, PropertyData>` in insertion order: `set` updates the
first (only) entry holding the key in place, otherwise appends. -/
def mapSet : List (String × PropertyData) → String → PropertyData →
    List (String × PropertyData)
  | [], k, v => [(k, v)]
  | e :: es, k, v => if e.1 == k then (k, v) :: es else e :: mapSet es k v

/-- `Map.get`: the value stored under the key, if any. -/
def mapGet : List (String × PropertyData) → String → Option PropertyData
  | [], _ => none
  | e :: es, k => if e.1 == k then some e.2 else mapGet es k

/-- `Map.has`. -/
def mapHas (m : List (String × PropertyData)) (k : String) : Bool :=
  (mapGet m k).isSome

/-- `Map.delete`: whether the key was present, and the map afterwards. -/
def mapDelete : List (String × PropertyData) → String →
    Bool × List (String × PropertyData)
  | [], _ => (false, [])
  | e :: es, k =>
    if e.1 == k then (true, es)
    else
      let r := mapDelete es k
      (r.1, e :: r.2)

/-- The mutable state of `MemoryPropertyStorage`: the `properties` map and
the `nextId` counter. -/
structure Store where
  properties : List (String × PropertyData)
  nextId : Nat
deriving DecidableEq, Repr

/-- The freshly constructed storage: empty map, counter at 1. -/
def emptyStore : Store := ⟨[], 1⟩

/-- `MemoryPropertyStorage.addProperty`: validate, draw the next numeric id,
and store a copy of the argument whose `id` field is overwritten by the key. -/
def addProperty (st : Store) (p : PropertyData) :
    Except StorageError (String × Store) :=
  match validateProperty p with
  | some e => .error e
  | none =>
    let id := toString st.nextId
    .ok (id, ⟨mapSet st.properties id { p with id := id }, st.nextId + 1⟩)

/-- `MemoryPropertyStorage.getProperty`: a copy of the stored record, or a
NOT_FOUND `StorageError` for an absent id. -/
def getProperty (st : Store) (id : String) : Except StorageError PropertyData :=
  match mapGet st.properties id with
  | some p => .ok p
  | none => .error (notFoundError id)

/-- `MemoryPropertyStorage.updateProperty`: NOT_FOUND for an absent id,
otherwise validate and store a copy of the argument whose `id` field is
overwritten by the key. -/
def updateProperty (st : Store) (id : String) (p : PropertyData) :
    Except StorageError Store :=
  if mapHas st.properties id then
    match validateProperty p with
    | some e => .error e
    | none =>
      .ok { st with properties := mapSet st.properties id { p with id := id } }
  else .error (notFoundError id)

/-- `MemoryPropertyStorage.deleteProperty`: NOT_FOUND when `Map.delete`
reports the id absent, otherwise the store without that entry. -/
def deleteProperty (st : Store) (id : String) : Except StorageError Store :=
  let r := mapDelete st.properties id
  if r.1 then .ok { st with properties := r.2 }
  else .error (notFoundError id)

/-- A search result of the property storage (`SearchResult` plus the `id`
the source attaches). -/
structure SearchResult where
  id : String
  property : PropertyData
  similarity : ℚ
  matchedFilters : List String
deriving DecidableEq, Repr

/-- Options of a vector search (`SearchOptions`). -/
structure SearchOptions where
  limit : Nat
  threshold : Option ℚ
  includeMetadata : Option Bool
  sortBy : Option String
deriving DecidableEq, Repr

/-- `MemoryPropertyStorage.searchByVector`: every stored entry, each with
similarity 1.0 and no matched filters; the query vector and the options are
not consulted. -/
def searchByVector (st : Store) (vector : List ℚ) (options : SearchOptions) :
    List SearchResult :=
  st.properties.map (fun e => ⟨e.1, e.2, 1, []⟩)

/-- `MemoryPropertyStorage.getCount`. -/
def getCount (st : Store) : Nat := st.properties.length

/-- `MemoryPropertyStorage.clear`: empties the map and resets the counter. -/
def clear (st : Store) : Store := emptyStore

/-- The key/id invariant: every entry of the properties map carries the
record whose `id` field equals its key. -/
def WellFormed (st : Store) : Prop := ∀ e ∈ st.properties, e.2.id = e.1

/-- A sample valid property record used to instantiate theorems at concrete
inputs. -/
def sampleProperty (id name : String) : PropertyData :=
  { id := id, name := name, neighborhood := "OceanFront",
    zoningType := "residential", plotSize := "medium",
    buildingSize := "lowrise", maxFloors := 10, minFloors := 1,
    plotArea := 5000, maxBuildingHeight := 120, minBuildingHeight := 10,
    oceanDistanceMeters := 300, bayDistanceMeters := 1200,
    description := "a sample listing", nft := none, market := none }

end PropertyStorage

namespace Chunking

lemma chunkLoop_ne_nil (c b : Nat) (t : List Char) : chunkLoop c b t ≠ [] := by
  rw [chunkLoop]
  split <;> simp

lemma chunkLoop_of_short (c b : Nat) (t : List Char) (h : t.length ≤ c) :
    chunkLoop c b t = [t] := by
  rw [chunkLoop]
  exact dif_pos (Or.inl h)

lemma chunkLoop_of_long (c b : Nat) (t : List Char) (hc : c < t.length)
    (hb : b < c) : chunkLoop c b t = t.take c :: chunkLoop c b (t.drop (c - b)) := by
  rw [chunkLoop]
  exact dif_neg (by push_neg; exact ⟨hc, hb⟩)

lemma chunkLoop_head_length (c b : Nat) (t : List Char) (hb : b < c) :
    b ≤ t.length → b ≤ ((chunkLoop c b t).headD []).length := by
  intro hlen
  by_cases hc : t.length ≤ c
  · rw [chunkLoop_of_short c b t hc]
    simpa using hlen
  · push_neg at hc
    rw [chunkLoop_of_long c b t hc hb]
    simp only [List.headD_cons, List.length_take]
    omega

/-- Concatenating the head fragment with every later fragment stripped of its
first `b` characters recovers the original text. -/
lemma chunkLoop_reconstruct (c b : Nat) (hb : b < c) :
    ∀ n (t : List Char), t.length ≤ n →
      ((chunkLoop c b t).headD []) ++
        (((chunkLoop c b t).tail).map (List.drop b)).flatten = t := by
  intro n
  induction n with
  | zero =>
    intro t ht
    have : t = [] := List.length_eq_zero.mp (Nat.le_zero.mp ht)
    subst this
    rw [chunkLoop_of_short c b [] (by simp)]
    simp
  | succ n ih =>
    intro t ht
    by_cases hc : t.length ≤ c
    · rw [chunkLoop_of_short c b t hc]
      simp
    · push_neg at hc
      rw [chunkLoop_of_long c b t hc hb]
      set t' := t.drop (c - b) with ht'
      have hlen' : t'.length = t.length - (c - b) := by
        simp [ht']
      have hrec : t'.length ≤ n := by omega
      have hih := ih t' hrec
      -- the recursive call is nonempty, so we can split it into head and tail
      obtain ⟨hd, tl, heq⟩ := List.exists_cons_of_ne_nil (chunkLoop_ne_nil c b t')
      have hhd : (chunkLoop c b t').headD [] = hd := by rw [heq]; rfl
      have hhdlen : b ≤ hd.length := by
        have := chunkLoop_head_length c b t' hb (by omega)
        rwa [hhd] at this
      rw [heq] at hih
      simp only [List.headD_cons, List.tail_cons] at hih
      rw [heq]
      simp only [List.headD_cons, List.tail_cons, List.map_cons,
        List.flatten_cons]
      have hdrop : hd.drop b ++ (tl.map (List.drop b)).flatten =
          (hd ++ (tl.map (List.drop b)).flatten).drop b := by
        rw [List.drop_append_of_le_length hhdlen]
      rw [hdrop, hih]
      have : t'.drop b = t.drop c := by
        rw [ht', List.drop_drop]
        congr 1
        omega
      rw [this, List.take_append_drop]

/-- C4: for every text of length at most `chunkSize` and every valid bleed
(`bleed < chunkSize`), `splitChunks` returns exactly one fragment, equal to
the input text. -/
theorem splitChunks_short (t : List Char) (c b : Nat) (hb : b < c)
    (hlen : t.length ≤ c) : splitChunks t c b = .ok [t] := by
  unfold splitChunks
  rw [if_neg (by omega), chunkLoop_of_short c b t hlen]

theorem splitChunks_short_witness :
    (2 < 5 ∧ (['h', 'e', 'y'] : List Char).length ≤ 5) ∧
      splitChunks ['h', 'e', 'y'] 5 2 = .ok [['h', 'e', 'y']] :=
  ⟨⟨by norm_num, by simp⟩, splitChunks_short _ 5 2 (by norm_num) (by simp)⟩

/-- C5: for every text and every configuration with `bleed >= chunkSize`,
`splitChunks` fails with a configuration error and returns no fragments. -/
theorem splitChunks_invalid_config (t : List Char) (c b : Nat) (h : c ≤ b) :
    splitChunks t c b = .error .invalidChunkConfig := by
  unfold splitChunks
  rw [if_pos h]

theorem splitChunks_invalid_config_witness :
    (3 : Nat) ≤ 7 ∧
      splitChunks ['h', 'i'] 3 7 = .error .invalidChunkConfig :=
  ⟨by norm_num, splitChunks_invalid_config _ 3 7 (by norm_num)⟩

/-- C2: for every text, chunk size `c` and bleed `b` with `b < c`, the
fragments returned by `splitChunks` are nonempty, and concatenating the first
fragment with every later fragment stripped of its first `b` characters
yields exactly the original text. -/
theorem splitChunks_reconstruct (t : List Char) (c b : Nat)
    (frags : List (List Char)) (hb : b < c)
    (hok : splitChunks t c b = .ok frags) :
    frags ≠ [] ∧
      frags.headD [] ++ ((frags.tail).map (List.drop b)).flatten = t := by
  unfold splitChunks at hok
  rw [if_neg (by omega)] at hok
  have hfr : frags = chunkLoop c b t := by
    cases hok
    rfl
  subst hfr
  exact ⟨chunkLoop_ne_nil c b t,
    chunkLoop_reconstruct c b hb t.length t le_rfl⟩

theorem splitChunks_reconstruct_witness :
    (2 < 4 ∧ splitChunks ['a', 'b', 'c', 'd', 'e', 'f', 'g', 'h'] 4 2 =
        .ok [['a', 'b', 'c', 'd'], ['c', 'd', 'e', 'f'], ['e', 'f', 'g', 'h']]) ∧
      ([['a', 'b', 'c', 'd'], ['c', 'd', 'e', 'f'], ['e', 'f', 'g', 'h']] ≠
          ([] : List (List Char)) ∧
        [['a', 'b', 'c', 'd'], ['c', 'd', 'e', 'f'],
            ['e', 'f', 'g', 'h']].headD [] ++
          (([['a', 'b', 'c', 'd'], ['c', 'd', 'e', 'f'],
              ['e', 'f', 'g', 'h']].tail).map (List.drop 2)).flatten =
            ['a', 'b', 'c', 'd', 'e', 'f', 'g', 'h']) :=
  ⟨⟨by norm_num, by simp [splitChunks, chunkLoop]⟩,
    splitChunks_reconstruct ['a', 'b', 'c', 'd', 'e', 'f', 'g', 'h'] 4 2 _
      (by norm_num) (by simp [splitChunks, chunkLoop])⟩

end Chunking

namespace MemoryModel

/-- C1: inserting the same text twice into the same scope with `unique=true`
leaves exactly one stored memory, inserting it twice with `unique=false`
leaves two, and `createMemory` preserves the invariant that the store never
holds two unique memories in the same scope with effectively identical
text. -/
theorem createMemory_unique_dedup (m1 m2 : Memory)
    (htext : m1.content.text = m2.content.text)
    (hroom : m1.roomId = m2.roomId)
    (hne : m1.content.text ≠ "") :
    (createMemory [] { m1 with unique := true } =
        .ok [{ m1 with unique := true }] ∧
      createMemory [{ m1 with unique := true }] { m2 with unique := true } =
        .ok [{ m1 with unique := true }]) ∧
    (createMemory [] { m1 with unique := false } =
        .ok [{ m1 with unique := false }] ∧
      createMemory [{ m1 with unique := false }] { m2 with unique := false } =
        .ok [{ m1 with unique := false }, { m2 with unique := false }]) ∧
    (∀ (store store' : List Memory) (m : Memory), NoDupUnique store →
      createMemory store m = .ok store' → NoDupUnique store') := by
  have hne2 : m2.content.text ≠ "" := htext ▸ hne
  refine ⟨⟨?_, ?_⟩, ⟨?_, ?_⟩, ?_⟩
  · simp [createMemory, hne]
  · simp [createMemory, effectivelyIdentical, hne2, ← htext, ← hroom, hne]
  · simp [createMemory, hne]
  · simp [createMemory, hne2]
  · intro store store' m hnd hok
    unfold createMemory at hok
    by_cases h1 : m.content.text = ""
    · simp [h1] at hok
    rw [if_neg h1] at hok
    by_cases h2 : (m.unique && store.any (fun x => x.roomId == m.roomId &&
        effectivelyIdentical x.content.text m.content.text)) = true
    · rw [if_pos h2] at hok
      cases hok
      exact hnd
    · rw [if_neg h2] at hok
      cases hok
      rw [NoDupUnique, List.pairwise_append]
      refine ⟨hnd, List.pairwise_singleton _ _, ?_⟩
      intro a ha b hb
      simp only [List.mem_singleton] at hb
      subst hb
      rintro ⟨hau, hmu, hroom', hident⟩
      apply h2
      simp only [hmu, Bool.true_and, List.any_eq_true]
      exact ⟨a, ha, by simp [hroom', hident]⟩

theorem createMemory_unique_dedup_witness :
    ((sampleMemory 1 7 "hello" true).content.text =
        (sampleMemory 2 7 "hello" true).content.text ∧
      (sampleMemory 1 7 "hello" true).roomId =
        (sampleMemory 2 7 "hello" true).roomId ∧
      (sampleMemory 1 7 "hello" true).content.text ≠ "") ∧
    ((createMemory [] { sampleMemory 1 7 "hello" true with unique := true } =
        .ok [{ sampleMemory 1 7 "hello" true with unique := true }] ∧
      createMemory [{ sampleMemory 1 7 "hello" true with unique := true }]
          { sampleMemory 2 7 "hello" true with unique := true } =
        .ok [{ sampleMemory 1 7 "hello" true with unique := true }]) ∧
    (createMemory [] { sampleMemory 1 7 "hello" true with unique := false } =
        .ok [{ sampleMemory 1 7 "hello" true with unique := false }] ∧
      createMemory [{ sampleMemory 1 7 "hello" true with unique := false }]
          { sampleMemory 2 7 "hello" true with unique := false } =
        .ok [{ sampleMemory 1 7 "hello" true with unique := false },
          { sampleMemory 2 7 "hello" true with unique := false }]) ∧
    (∀ (store store' : List Memory) (m : Memory), NoDupUnique store →
      createMemory store m = .ok store' → NoDupUnique store')) :=
  ⟨⟨rfl, rfl, by simp [sampleMemory]⟩,
    createMemory_unique_dedup (sampleMemory 1 7 "hello" true)
      (sampleMemory 2 7 "hello" true) rfl rfl (by simp [sampleMemory])⟩

/-- C6: when the memory has text, carries no embedding yet, the cache has no
entry for the text, and the provider call fails, `addEmbeddingToMemory` does
not propagate the failure: it succeeds and returns the memory with its
embedding set to the zero vector of the expected dimensionality. -/
theorem addEmbeddingToMemory_zero_fallback
    (cache : String → Option (List ℚ))
    (provider : String → Except ProviderError (List ℚ)) (dim : Nat)
    (m : Memory) (err : ProviderError)
    (hne : m.content.text ≠ "") (hemb : m.embedding = none)
    (hcache : cache m.content.text = none)
    (hfail : provider m.content.text = .error err) :
    addEmbeddingToMemory cache provider dim m =
      .ok { m with embedding := some (zeroVector dim) } ∧
    (zeroVector dim).length = dim := by
  constructor
  · simp [addEmbeddingToMemory, hne, hemb, hcache, hfail]
  · simp [zeroVector]

theorem addEmbeddingToMemory_zero_fallback_witness :
    ((sampleMemory 1 7 "hello" false).content.text ≠ "" ∧
      (sampleMemory 1 7 "hello" false).embedding = none ∧
      (fun (_ : String) => (none : Option (List ℚ)))
          (sampleMemory 1 7 "hello" false).content.text = none ∧
      (fun (_ : String) =>
          (Except.error ProviderError.unavailable :
            Except ProviderError (List ℚ)))
          (sampleMemory 1 7 "hello" false).content.text =
        .error ProviderError.unavailable) ∧
    (addEmbeddingToMemory (fun _ => none)
        (fun _ => .error ProviderError.unavailable) 3
        (sampleMemory 1 7 "hello" false) =
      .ok { sampleMemory 1 7 "hello" false with
        embedding := some (zeroVector 3) } ∧
    (zeroVector 3).length = 3) :=
  ⟨⟨by simp [sampleMemory], rfl, rfl, rfl⟩,
    addEmbeddingToMemory_zero_fallback (fun _ => none)
      (fun _ => .error ProviderError.unavailable) 3
      (sampleMemory 1 7 "hello" false) ProviderError.unavailable
      (by simp [sampleMemory]) rfl rfl rfl⟩

end MemoryModel

namespace MemoryModel

/-- On a list in which any element satisfying `p` only follows elements also
satisfying `p`, filtering by `p` is taking the initial run satisfying `p`. -/
lemma filter_eq_takeWhile_of_pairwise {α : Type} (p : α → Bool) :
    ∀ l : List α, l.Pairwise (fun a b => p b = true → p a = true) →
      l.filter p = l.takeWhile p := by
  intro l
  induction l with
  | nil => intro _; rfl
  | cons a l ih =>
    intro h
    rcases List.pairwise_cons.mp h with ⟨ha, hl⟩
    by_cases hp : p a = true
    · simp [List.filter_cons, List.takeWhile_cons, hp, ih hl]
    · have hnone : ∀ b ∈ l, ¬ p b = true := fun b hb hpb => hp (ha b hb hpb)
      simp only [List.filter_cons, List.takeWhile_cons, hp, if_false,
        Bool.false_eq_true, ite_false]
      exact List.filter_eq_nil_iff.mpr hnone

/-- Weakening the predicate only extends the initial run. -/
lemma takeWhile_prefix_mono {α : Type} (p q : α → Bool)
    (h : ∀ x, p x = true → q x = true) :
    ∀ l : List α, l.takeWhile p <+: l.takeWhile q := by
  intro l
  induction l with
  | nil => simp
  | cons a l ih =>
    by_cases hp : p a = true
    · rw [List.takeWhile_cons_of_pos hp, List.takeWhile_cons_of_pos (h a hp)]
      obtain ⟨t, ht⟩ := ih
      exact ⟨t, by rw [List.cons_append, ht]⟩
    · rw [List.takeWhile_cons_of_neg hp]
      exact List.nil_prefix

/-- Taking the same number of elements preserves the prefix relation. -/
lemma isPrefix_take_mono {α : Type} {l1 l2 : List α} (h : l1 <+: l2)
    (n : Nat) : l1.take n <+: l2.take n := by
  obtain ⟨t, rfl⟩ := h
  rw [List.take_append_eq_append_take]
  exact ⟨_, rfl⟩

/-- C3: lowering the match threshold only extends the result set of
`searchMemoriesByEmbedding`; every returned score is at or above the
threshold used; results are ordered by descending similarity; and the result
is truncated to `count`. -/
theorem searchMemoriesByEmbedding_spec (sim : List ℚ → List ℚ → ℚ)
    (store : List Memory) (e : List ℚ) (room : Nat) (count : Nat)
    (t1 t2 : ℚ) (h12 : t1 < t2) :
    (∀ p ∈ searchMemoriesByEmbedding sim store e t2 count room,
      p ∈ searchMemoriesByEmbedding sim store e t1 count room) ∧
    (∀ t : ℚ, ∀ p ∈ searchMemoriesByEmbedding sim store e t count room,
      t ≤ p.2) ∧
    (∀ t : ℚ, (searchMemoriesByEmbedding sim store e t count room).Pairwise
      (fun a b => b.2 ≤ a.2)) ∧
    (∀ t : ℚ,
      (searchMemoriesByEmbedding sim store e t count room).length ≤ count) := by
  set L := List.insertionSort simGE
    ((store.filter (fun m => m.roomId == room)).map
      (fun m => (m, sim e (m.embedding.getD [])))) with hLdef
  have hL : ∀ t : ℚ, searchMemoriesByEmbedding sim store e t count room =
      (L.filter (fun p => decide (t ≤ p.2))).take count := fun t => rfl
  have hsorted : L.Pairwise simGE := List.sorted_insertionSort simGE _
  have hpair : ∀ t : ℚ, L.Pairwise
      (fun a b => decide (t ≤ b.2) = true → decide (t ≤ a.2) = true) := by
    intro t
    refine hsorted.imp ?_
    intro a b hab hb
    simp only [decide_eq_true_eq] at *
    exact le_trans hb hab
  refine ⟨?_, ?_, ?_, ?_⟩
  · intro p hp
    rw [hL t2] at hp
    rw [hL t1]
    have hmono : ∀ x : Memory × ℚ,
        decide (t2 ≤ x.2) = true → decide (t1 ≤ x.2) = true := by
      intro x hx
      simp only [decide_eq_true_eq] at *
      linarith
    rw [filter_eq_takeWhile_of_pairwise _ L (hpair t2)] at hp
    rw [filter_eq_takeWhile_of_pairwise _ L (hpair t1)]
    exact (isPrefix_take_mono (takeWhile_prefix_mono _ _ hmono L) count).subset
      hp
  · intro t p hp
    rw [hL t] at hp
    have hp' := List.mem_of_mem_take hp
    have := List.of_mem_filter hp'
    simpa using this
  · intro t
    rw [hL t]
    have h1 : (L.filter (fun p => decide (t ≤ p.2))).Pairwise simGE :=
      hsorted.filter _
    exact List.Pairwise.sublist (List.take_sublist _ _) h1
  · intro t
    rw [hL t]
    exact List.length_take_le _ _

theorem searchMemoriesByEmbedding_spec_witness :
    ((0 : ℚ) < 1) ∧
    ((∀ p ∈ searchMemoriesByEmbedding (fun _ _ => 0)
        [sampleMemory 1 7 "hello" false] [] 1 3 7,
      p ∈ searchMemoriesByEmbedding (fun _ _ => 0)
        [sampleMemory 1 7 "hello" false] [] 0 3 7) ∧
    (∀ t : ℚ, ∀ p ∈ searchMemoriesByEmbedding (fun _ _ => 0)
        [sampleMemory 1 7 "hello" false] [] t 3 7, t ≤ p.2) ∧
    (∀ t : ℚ, (searchMemoriesByEmbedding (fun _ _ => 0)
        [sampleMemory 1 7 "hello" false] [] t 3 7).Pairwise
      (fun a b => b.2 ≤ a.2)) ∧
    (∀ t : ℚ, (searchMemoriesByEmbedding (fun _ _ => 0)
        [sampleMemory 1 7 "hello" false] [] t 3 7).length ≤ 3)) :=
  ⟨by norm_num,
    searchMemoriesByEmbedding_spec (fun _ _ => 0)
      [sampleMemory 1 7 "hello" false] [] 7 3 0 1 (by norm_num)⟩

/-- The length of a `filterMap` is the number of elements the function
resolves. -/
lemma length_filterMap_eq_length_filter {α β : Type} (f : α → Option β) :
    ∀ l : List α,
      (l.filterMap f).length = (l.filter (fun a => (f a).isSome)).length := by
  intro l
  induction l with
  | nil => rfl
  | cons a l ih =>
    cases hf : f a <;>
      simp [List.filterMap_cons, List.filter_cons, hf, ih]

/-- C7: every knowledge item returned by the retrieval step resolves to an
existing source document whose text it carries, and hits whose source
document is missing are dropped — the call still returns the remaining
items. -/
theorem knowledgeGet_drops_unresolved (sim : List ℚ → List ℚ → ℚ)
    (docs frags : List Memory) (e : List ℚ) (threshold : ℚ) (count room : Nat) :
    (∀ item ∈ knowledgeGet sim docs frags e threshold count room,
      ∃ d, getMemoryById docs item.sourceId = some d ∧
        item.documentText = d.content.text) ∧
    (knowledgeGet sim docs frags e threshold count room).length =
      ((searchMemoriesByEmbedding sim frags e threshold count room).filter
        (fun p => (resolveHit docs p).isSome)).length := by
  constructor
  · intro item hitem
    rw [knowledgeGet] at hitem
    obtain ⟨p, hp, hres⟩ := List.mem_filterMap.mp hitem
    unfold resolveHit at hres
    cases hsrc : p.1.content.source with
    | none =>
      rw [hsrc] at hres
      cases hres
    | some sid =>
      rw [hsrc] at hres
      have hres2 : (match getMemoryById docs sid with
          | none => none
          | some d => some (KnowledgeItem.mk p.1.content.text p.2 sid
              d.content.text)) = some item := hres
      cases hdoc : getMemoryById docs sid with
      | none =>
        rw [hdoc] at hres2
        simp at hres2
      | some d =>
        rw [hdoc] at hres2
        injection hres2 with h
        subst h
        exact ⟨d, hdoc, rfl⟩
  · exact length_filterMap_eq_length_filter _ _

end MemoryModel

namespace PropertyStorage

lemma mapGet_mapSet_self (m : List (String × PropertyData)) (k : String)
    (v : PropertyData) : mapGet (mapSet m k v) k = some v := by
  induction m with
  | nil => simp [mapSet, mapGet]
  | cons e es ih =>
    by_cases h : e.1 == k
    · simp [mapSet, mapGet, h]
    · simp [mapSet, mapGet, h, ih]

lemma mem_mapSet (m : List (String × PropertyData)) (k : String)
    (v : PropertyData) :
    ∀ e ∈ mapSet m k v, e = (k, v) ∨ e ∈ m := by
  induction m with
  | nil =>
    intro e he
    simp [mapSet] at he
    exact Or.inl he
  | cons a es ih =>
    intro e he
    by_cases h : a.1 == k
    · rw [mapSet, if_pos h] at he
      rcases List.mem_cons.mp he with h1 | h1
      · exact Or.inl h1
      · exact Or.inr (List.mem_cons_of_mem a h1)
    · rw [mapSet, if_neg h] at he
      rcases List.mem_cons.mp he with h1 | h1
      · exact Or.inr (h1 ▸ List.mem_cons_self a es)
      · rcases ih e h1 with h2 | h2
        · exact Or.inl h2
        · exact Or.inr (List.mem_cons_of_mem a h2)

lemma mem_mapDelete_snd (m : List (String × PropertyData)) (k : String) :
    ∀ e ∈ (mapDelete m k).2, e ∈ m := by
  induction m with
  | nil =>
    intro e he
    simp [mapDelete] at he
  | cons a es ih =>
    intro e he
    by_cases h : a.1 == k
    · rw [mapDelete, if_pos h] at he
      exact List.mem_cons_of_mem a he
    · rw [mapDelete, if_neg h] at he
      rcases List.mem_cons.mp he with h1 | h1
      · exact h1 ▸ List.mem_cons_self a es
      · exact List.mem_cons_of_mem a (ih e h1)

lemma mapDelete_of_absent (m : List (String × PropertyData)) (k : String)
    (h : mapGet m k = none) : mapDelete m k = (false, m) := by
  induction m with
  | nil => rfl
  | cons a es ih =>
    rw [mapGet] at h
    by_cases hk : a.1 == k
    · rw [if_pos hk] at h
      cases h
    · rw [if_neg hk] at h
      rw [mapDelete, if_neg hk, ih h]

/-- C8: `searchByVector` returns every stored entry, each with similarity
exactly 1 and an empty matched-filter list, and neither the query vector nor
the search options influence the result. -/
theorem searchByVector_returns_all (st : Store) (v : List ℚ)
    (o : SearchOptions) :
    ((searchByVector st v o).map (fun r => (r.id, r.property)) =
      st.properties) ∧
    (∀ r ∈ searchByVector st v o, r.similarity = 1 ∧ r.matchedFilters = []) ∧
    (∀ (v2 : List ℚ) (o2 : SearchOptions),
      searchByVector st v o = searchByVector st v2 o2) := by
  refine ⟨?_, ?_, ?_⟩
  · rw [searchByVector, List.map_map]
    have hcomp : ((fun r : SearchResult => (r.id, r.property)) ∘
        (fun e : String × PropertyData => ⟨e.1, e.2, 1, []⟩)) =
          fun e : String × PropertyData => e :=
      funext fun e => rfl
    rw [hcomp, List.map_id']
  · intro r hr
    rw [searchByVector] at hr
    obtain ⟨e, he, hre⟩ := List.mem_map.mp hr
    exact hre ▸ ⟨rfl, rfl⟩
  · intro v2 o2
    rfl

/-- C9: for an id that is not in the properties map, `getProperty` and
`deleteProperty` both fail with a NOT_FOUND `StorageError`, and deleting the
absent id leaves the map unchanged. -/
theorem absent_id_errors (st : Store) (id : String)
    (h : mapGet st.properties id = none) :
    getProperty st id = .error (notFoundError id) ∧
    deleteProperty st id = .error (notFoundError id) ∧
    (mapDelete st.properties id).2 = st.properties := by
  have hdel := mapDelete_of_absent st.properties id h
  refine ⟨?_, ?_, ?_⟩
  · simp [getProperty, h]
  · simp [deleteProperty, hdel]
  · rw [hdel]

theorem absent_id_errors_witness :
    mapGet emptyStore.properties "1" = none ∧
    (getProperty emptyStore "1" = .error (notFoundError "1") ∧
      deleteProperty emptyStore "1" = .error (notFoundError "1") ∧
      (mapDelete emptyStore.properties "1").2 = emptyStore.properties) :=
  ⟨rfl, absent_id_errors emptyStore "1" rfl⟩

/-- C10: the storage operations preserve the invariant that every entry of
the properties map stores a record whose `id` field equals its key;
`addProperty` and `updateProperty` in particular store a copy of the
argument whose `id` field is overwritten by the map key, regardless of the
id the caller supplied. -/
theorem stored_id_matches_key (st : Store) (hwf : WellFormed st) :
    (∀ (p : PropertyData) (id : String) (st' : Store),
      addProperty st p = .ok (id, st') →
        WellFormed st' ∧
          mapGet st'.properties id = some { p with id := id }) ∧
    (∀ (id : String) (p : PropertyData) (st' : Store),
      updateProperty st id p = .ok st' →
        WellFormed st' ∧
          mapGet st'.properties id = some { p with id := id }) ∧
    (∀ (id : String) (st' : Store), deleteProperty st id = .ok st' →
      WellFormed st') := by
  refine ⟨?_, ?_, ?_⟩
  · intro p id st' h
    rw [addProperty] at h
    cases hv : validateProperty p with
    | some err =>
      rw [hv] at h
      cases h
    | none =>
      rw [hv] at h
      injection h with h2
      rw [Prod.mk.injEq] at h2
      obtain ⟨h3, h4⟩ := h2
      subst h3
      subst h4
      constructor
      · intro e he
        rcases mem_mapSet _ _ _ e he with h5 | h5
        · subst h5
          rfl
        · exact hwf e h5
      · exact mapGet_mapSet_self _ _ _
  · intro id p st' h
    rw [updateProperty] at h
    by_cases hb : mapHas st.properties id
    · rw [if_pos hb] at h
      cases hv : validateProperty p with
      | some err =>
        rw [hv] at h
        cases h
      | none =>
        rw [hv] at h
        injection h with h2
        subst h2
        constructor
        · intro e he
          rcases mem_mapSet _ _ _ e he with h5 | h5
          · subst h5
            rfl
          · exact hwf e h5
        · exact mapGet_mapSet_self _ _ _
    · rw [if_neg hb] at h
      cases h
  · intro id st' h
    rw [deleteProperty] at h
    by_cases hr : (mapDelete st.properties id).1
    · rw [if_pos hr] at h
      injection h with h2
      subst h2
      intro e he
      exact hwf e (mem_mapDelete_snd _ _ e he)
    · rw [if_neg hr] at h
      cases h

theorem stored_id_matches_key_witness :
    WellFormed emptyStore ∧
    ((∀ (p : PropertyData) (id : String) (st' : Store),
      addProperty emptyStore p = .ok (id, st') →
        WellFormed st' ∧
          mapGet st'.properties id = some { p with id := id }) ∧
    (∀ (id : String) (p : PropertyData) (st' : Store),
      updateProperty emptyStore id p = .ok st' →
        WellFormed st' ∧
          mapGet st'.properties id = some { p with id := id }) ∧
    (∀ (id : String) (st' : Store), deleteProperty emptyStore id = .ok st' →
      WellFormed st')) :=
  ⟨by simp [WellFormed, emptyStore],
    stored_id_matches_key emptyStore (by simp [WellFormed, emptyStore])⟩

end PropertyStorage
